import Mathlib

/-!
A verification development for the conversational form-filling assistant
(`src/form_processor.py`, `src/llm_handler.py`).  The Python code is shallowly
embedded: Python strings are Lean `String`s (operated on through their
character lists so everything reduces in the kernel), Python dicts holding
field definitions become the `FieldRec` structure, the mutable `completed_form
= dict(self.form_data)` aliasing is modelled with an explicit heap of field
records addressed by `Nat`, and the two external collaborators (the console
input stream and the LLM oracle) are modelled as environments supplied to
`process_form` (a list of input lines and a list of oracle outcomes, one per
validation attempt).  `form_context` is `None` throughout, matching the
default constructor argument.
-/

namespace FormAgent

/-! ## Python string primitives

Helpers mirroring the Python string operations used by the processor.
They work on `List Char` so that all proofs reduce by `rfl`/`decide`.
ASCII case mapping is used for `lower`/`upper`, and `strip` removes the
ASCII whitespace characters, matching the inputs this system handles. -/

def pyLower (s : String) : String := ⟨s.data.map Char.toLower⟩

def pyUpper (s : String) : String := ⟨s.data.map Char.toUpper⟩

def pyStrip (s : String) : String :=
  ⟨((s.data.dropWhile Char.isWhitespace).reverse.dropWhile Char.isWhitespace).reverse⟩

/-- Python truthiness of a string: nonempty. -/
def pyTruthy (s : String) : Bool := !s.data.isEmpty

/-- `needle` is a list-level pfx of `hay`. -/
def isPfx : List Char → List Char → Bool
  | [], _ => true
  | _ :: _, [] => false
  | a :: as, b :: bs => a == b && isPfx as bs

/-- `hasSub needle hay`: `needle` occurs as a contiguous run in `hay`. -/
def hasSub (needle : List Char) : List Char → Bool
  | [] => needle.isEmpty
  | c :: rest => isPfx needle (c :: rest) || hasSub needle rest

/-- Python `sub in s` (substring test). -/
def pyContains (s sub : String) : Bool := hasSub sub.data s.data

/-- Python `s.startswith(p)`. -/
def pyStartsWith (s p : String) : Bool := isPfx p.data s.data

def splitCharAux (c : Char) : List Char → List Char → List (List Char)
  | [], acc => [acc.reverse]
  | x :: xs, acc =>
      if x == c then acc.reverse :: splitCharAux c xs []
      else splitCharAux c xs (x :: acc)

/-- Python `s.split(c)` for a single-character separator. -/
def splitChar (c : Char) (cs : List Char) : List (List Char) := splitCharAux c cs []

def joinWith (sep : List Char) : List (List Char) → List Char
  | [] => []
  | [x] => x
  | x :: xs => x ++ sep ++ joinWith sep xs

/-- Python `str.capitalize()`: first character uppercased, the rest lowered. -/
def pyCapitalize : List Char → List Char
  | [] => []
  | c :: rest => Char.toUpper c :: rest.map Char.toLower

/-- Python `int(...)` digit part: digits, with single underscores allowed
between digits. -/
def pyDigitsOk : List Char → Bool
  | [] => false
  | [c] => c.isDigit
  | c :: '_' :: rest => c.isDigit && pyDigitsOk rest
  | c :: rest => c.isDigit && pyDigitsOk rest

def natOfDigits (cs : List Char) : Nat :=
  cs.foldl (fun acc c => if c == '_' then acc else acc * 10 + (c.toNat - '0'.toNat)) 0

/-- Python `int(s)`: `none` models a `ValueError`. -/
def pyInt (s : String) : Option Int :=
  match (pyStrip s).data with
  | '+' :: rest => if pyDigitsOk rest then some (natOfDigits rest : Int) else none
  | '-' :: rest => if pyDigitsOk rest then some (-(natOfDigits rest : Int)) else none
  | rest => if pyDigitsOk rest then some (natOfDigits rest : Int) else none

/-! ## Data model -/

/-- A Python value stored under a field dict's `value` key: `None` or a string. -/
inductive Val where
  | none
  | str (s : String)
deriving DecidableEq, Repr

/-- One entry of a select field's `options` list.  The processor reads the
keys `value` and `text` (`opt.get('value', '')`, `opt.get('text',
opt.get('value', ''))`). -/
structure SelOption where
  value : Option String := Option.none
  text : Option String := Option.none
deriving DecidableEq, Repr

/-- Declared validation rules (`validation` key) as produced by the template
parsers.  `FormProcessor` never reads this key; it is carried as inert data. -/
structure VRuleSet where
  pattern : Option String := Option.none
  min : Option Int := Option.none
  max : Option Int := Option.none
  message : Option String := Option.none
deriving DecidableEq, Repr

/-- A `conditional` entry (`{depends_on, values}`) as produced by
`MRRTParser._parse_conditionals`.  `FormProcessor` never reads it. -/
structure Cond where
  depends_on : String
  values : List String
deriving DecidableEq, Repr

/-- One field dict of the loaded form.  Keys read with `.get` defaults are
stored with those defaults pre-applied; `label` keeps presence information
because its default is computed from the field name. -/
structure FieldRec where
  type : String := "text"
  required : Bool := false
  hidden : Bool := false
  label : Option String := Option.none
  description : String := ""
  options : List SelOption := []
  validation : Option VRuleSet := Option.none
  conditional : Option Cond := Option.none
  placeholder : Option String := Option.none
  value : Val := Val.none
  needs_review : Option Bool := Option.none
  review_reason : Option String := Option.none
deriving DecidableEq, Repr

instance : Inhabited FieldRec := ⟨{}⟩

def optValue (o : SelOption) : String := o.value.getD ""

def optText (o : SelOption) : String := o.text.getD (o.value.getD "")

/-- `FormProcessor._format_field_name`. -/
def format_field_name (field_name : String) : String :=
  ⟨joinWith [' '] ((splitChar '_' field_name.data).map pyCapitalize)⟩

def displayName (field_name : String) (fd : FieldRec) : String :=
  fd.label.getD (format_field_name field_name)

/-! ## The LLM oracle environment

`llm_interface.validate_input` is an external capability.  Its outcome, as
seen by `_validate_input_with_context`, is either a raised exception, a
non-dict return value, or a dict read through `.get` with defaults. -/

/-- The `processed_value` key of the oracle's dict: absent, JSON null, or a
string. -/
inductive PV where
  | absent
  | null
  | str (s : String)
deriving DecidableEq, Repr

/-- The verdict dict (`is_valid` defaults to `False`, `message` to `''`,
`processed_value` to the raw user input). -/
structure VDict where
  is_valid : Bool := false
  message : String := ""
  processed_value : PV := PV.absent
deriving DecidableEq, Repr

inductive LLMRet where
  | notDict
  | dict (d : VDict)
deriving DecidableEq, Repr

/-- Outcome of one `llm_interface.validate_input` call. -/
inductive LLMCall where
  | raises
  | returns (r : LLMRet)
deriving DecidableEq, Repr

/-- A validator result `(is_valid, message, normalized_value)`. -/
abbrev VRes := Bool × Option String × Val

/-! ## Field validators (`FormProcessor`) -/

/-- `FormProcessor._is_skip_request`: the skip-phrase set, matched against the
lowered and stripped input (the two regexes are anchored alternations). -/
def is_skip_request (user_input : String) : Bool :=
  ["none", "n/a", "na", "not applicable", "skip", "empty", "nil", "null",
   "not specified", "unknown", ""].contains (pyStrip (pyLower user_input))

/-- The built-in medical-abbreviation dictionary of
`_validate_input_with_context`. -/
def medical_abbreviations (s : String) : Option String :=
  if s = "mri" then some "Magnetic Resonance Imaging"
  else if s = "ct" then some "Computed Tomography"
  else if s = "us" then some "Ultrasound"
  else if s = "xr" then some "X-Ray"
  else if s = "cxr" then some "Chest X-Ray"
  else if s = "pet" then some "Positron Emission Tomography"
  else if s = "np" then some "No Pain"
  else if s = "nad" then some "No Acute Distress"
  else if s = "wdwn" then some "Well-Developed, Well-Nourished"
  else Option.none

/-- The `common_medical_terms` list of `_flexible_medical_validation`. -/
def common_medical_terms : List String :=
  ["mri", "ct", "pet", "us", "xr", "ekg", "ecg", "cbc", "wbc", "rbc",
   "bp", "hr", "sob", "cp", "mi", "cva", "tia", "uti", "bph", "gerd",
   "dm", "htn", "chf", "copd", "ra", "sle", "oa", "fx", "nad"]

def isSepChar (c : Char) : Bool := c == '/' || c == '-' || c == '.'

/-- Consume `\d{1,2}` then a separator, greedily (the two alternatives are
mutually exclusive, so no further backtracking is needed). -/
def d12sep : List Char → Option (List Char)
  | a :: b :: c :: rest =>
      if a.isDigit && b.isDigit && isSepChar c then some rest
      else if a.isDigit && isSepChar b then some (c :: rest)
      else none
  | [a, b] => if a.isDigit && isSepChar b then some [] else none
  | _ => none

/-- Consume `\d{4}` then a separator. -/
def d4sep : List Char → Option (List Char)
  | a :: b :: c :: d :: e :: rest =>
      if a.isDigit && b.isDigit && c.isDigit && d.isDigit && isSepChar e then some rest
      else none
  | _ => none

/-- The next `n` characters exist and are digits (a trailing `\d{n,m}` in an
unanchored `re.match` only needs its minimum run). -/
def leadDigits : Nat → List Char → Bool
  | 0, _ => true
  | _ + 1, [] => false
  | n + 1, c :: rest => c.isDigit && leadDigits n rest

/-- `re.match` of `\d{1,2}[/\-\.]\d{1,2}[/\-\.]\d{2,4}` (prefix match). -/
def datePattern1 (cs : List Char) : Bool :=
  match d12sep cs with
  | some rest1 =>
      match d12sep rest1 with
      | some rest2 => leadDigits 2 rest2
      | none => false
  | none => false

/-- `re.match` of `\d{4}[/\-\.]\d{1,2}[/\-\.]\d{1,2}` (prefix match). -/
def datePattern2 (cs : List Char) : Bool :=
  match d4sep cs with
  | some rest1 =>
      match d12sep rest1 with
      | some rest2 => leadDigits 1 rest2
      | none => false
  | none => false

/-- `re.match` of `\d{1,2}[/\-\.]\d{4}` (prefix match). -/
def datePattern3 (cs : List Char) : Bool :=
  match d12sep cs with
  | some rest1 => leadDigits 4 rest1
  | none => false

/-- `any(re.match(p, input_text) for p in date_patterns)`. -/
def dateShapeMatch (s : String) : Bool :=
  datePattern1 s.data || datePattern2 s.data || datePattern3 s.data

/-- Full match of `\d+`. -/
def allDigits1 (cs : List Char) : Bool := !cs.isEmpty && cs.all Char.isDigit

/-- Full match of `\d*\.?\d+` (the tail of the number regex). -/
def numTail : List Char → Bool
  | [] => false
  | '.' :: rest => allDigits1 rest
  | c :: rest => c.isDigit && (rest.isEmpty || numTail rest)

/-- `re.match(r'^-?\d*\.?\d+$', s)` as a full match. -/
def matchesNumberRe (s : String) : Bool :=
  match s.data with
  | '-' :: rest => numTail rest
  | cs => numTail cs

/-- `'@' in s and '.' in s.split('@')[1]`. -/
def emailShapeOk (s : String) : Bool :=
  pyContains s "@" && ((splitChar '@' s.data).getD 1 []).contains '.'

def homeRowChars : List Char := ['a', 's', 'd', 'f', 'j', 'k', 'l', ';']

def topRowChars : List Char := ['q', 'w', 'e', 'r', 't', 'y']

def bottomRowChars : List Char := ['z', 'x', 'c', 'v', 'b', 'n', 'm']

def specialChars : List Char := ['!', '@', '#', '$', '%', '^', '&', '*']

/-- The fourth `random_patterns` regex (lookaheads plus a character class of
length ≥ 10); applied to the lowered input it can only match when an
uppercase character survives lowering. -/
def complexRandomMatch (cs : List Char) : Bool :=
  decide (10 ≤ cs.length) &&
  cs.all (fun c => c.isAlpha || c.isDigit || specialChars.contains c) &&
  cs.any Char.isLower && cs.any Char.isUpper && cs.any Char.isDigit &&
  cs.any (fun c => specialChars.contains c)

/-- `FormProcessor._is_completely_random`. -/
def is_completely_random (user_input : String) : Bool :=
  let l := (pyLower user_input).data
  ((!l.isEmpty && l.all (fun c => homeRowChars.contains c)) ||
   (!l.isEmpty && l.all (fun c => topRowChars.contains c)) ||
   (!l.isEmpty && l.all (fun c => bottomRowChars.contains c)) ||
   complexRandomMatch l) &&
  decide (8 < user_input.data.length)

/-- `FormProcessor._flexible_medical_validation`. -/
def flexible_medical_validation (field_name : String) (fd : FieldRec)
    (user_input : String) : VRes :=
  let input_text := pyStrip user_input
  let display_name := displayName field_name fd
  if common_medical_terms.contains (pyLower input_text) then
    (true, Option.none, Val.str (pyUpper input_text))
  else if fd.type == "date" then
    if dateShapeMatch input_text then (true, Option.none, Val.str input_text)
    else (false, some ("Please enter a valid date format for " ++ display_name ++ "."),
          Val.none)
  else if fd.type == "number" then
    if matchesNumberRe input_text then (true, Option.none, Val.str input_text)
    else (false, some ("Please enter a valid number for " ++ display_name ++ "."),
          Val.none)
  else if fd.type == "email" then
    if emailShapeOk input_text then (true, Option.none, Val.str input_text)
    else (false, some ("Please enter a valid email address for " ++ display_name ++ "."),
          Val.none)
  else if fd.type == "text" || fd.type == "textarea" then
    if !is_completely_random input_text then (true, Option.none, Val.str input_text)
    else (false,
          some ("Your input appears to be random characters. Please provide meaningful information for "
            ++ display_name ++ "."),
          Val.none)
  else (true, Option.none, Val.str input_text)

/-- The fuzzy-match collection loop of `_validate_select_input`: an option
text matches when the lowered input is a substring of it, it is a substring
of the lowered input, or it starts with the input's first character. -/
def selMatches (user_input : String) (option_texts : List String) : List (Nat × String) :=
  let uiL := pyLower user_input
  option_texts.enum.filter fun it =>
    pyContains (pyLower it.2) uiL || pyContains uiL (pyLower it.2) ||
      (match uiL.data with
       | [] => false
       | c :: _ => isPfx [c] (pyLower it.2).data)

def idxOfAux (x : String) : List String → Nat → Nat
  | [], n => n
  | y :: ys, n => if y == x then n else idxOfAux x ys (n + 1)

/-- `"\n".join(f"{i+1}. {text}" for i, text in enumerate(texts))`. -/
def numberedLines (texts : List String) : String :=
  ⟨joinWith ['\n']
    (texts.enum.map fun it => (toString (it.1 + 1) ++ ". " ++ it.2).data)⟩

/-- `FormProcessor._validate_select_input`. -/
def validate_select_input (fd : FieldRec) (user_input : String) : VRes :=
  let options := fd.options
  let option_values := options.map optValue
  let option_texts := options.map optText
  if !pyTruthy (pyStrip user_input) then (true, Option.none, Val.str "")
  else
    match pyInt user_input with
    | some n =>
        let idx : Int := n - 1
        if 0 ≤ idx ∧ idx < (options.length : Int) then
          let i := idx.toNat
          let v := option_values.getD i ""
          (true, Option.none, Val.str (if pyTruthy v then v else option_texts.getD i ""))
        else
          (false,
           some ("Please enter a number between 1 and " ++ toString options.length ++ "."),
           Val.none)
    | none =>
        if option_values.contains user_input then (true, Option.none, Val.str user_input)
        else if option_texts.contains user_input then
          let i := idxOfAux user_input option_texts 0
          let v := option_values.getD i ""
          (true, Option.none, Val.str (if pyTruthy v then v else user_input))
        else
          let ms := selMatches user_input option_texts
          if ms.length == 1 then
            let i := (ms.headD (0, "")).1
            let v := option_values.getD i ""
            (true, Option.none, Val.str (if pyTruthy v then v else option_texts.getD i ""))
          else if 1 < ms.length then
            (false,
             some ("Multiple matches found. Please select one of the following:\n" ++
               numberedLines (ms.map Prod.snd)),
             Val.none)
          else
            if options.length ≤ 3 then
              (false,
               some ("Invalid selection. Please choose one of these options:\n" ++
                 numberedLines option_texts),
               Val.none)
            else (true, Option.none, Val.str (user_input ++ " (needs verification)"))

/-- `FormProcessor._validate_input_with_context`.  The oracle call's outcome
is supplied as `llm`; the prompt dict handed to the oracle (including
`_get_flexible_validation_rules`) is abstracted away because the oracle is an
environment.  The `try/except` around the call maps `LLMCall.raises` to the
flexible fallback. -/
def validate_input_with_context (field_name : String) (fd : FieldRec)
    (user_input : String) (llm : LLMCall) : VRes :=
  if fd.required && !pyTruthy (pyStrip user_input) then
    (false,
     some ("This field is required. Please provide a value for " ++
       displayName field_name fd ++ "."),
     Val.none)
  else if fd.type == "select" then validate_select_input fd user_input
  else
    match medical_abbreviations (pyLower (pyStrip user_input)) with
    | some expanded =>
        (true, Option.none, Val.str (pyUpper user_input ++ " (" ++ expanded ++ ")"))
    | Option.none =>
        match llm with
        | LLMCall.raises => flexible_medical_validation field_name fd user_input
        | LLMCall.returns LLMRet.notDict =>
            flexible_medical_validation field_name fd user_input
        | LLMCall.returns (LLMRet.dict d) =>
            let pv := match d.processed_value with
              | PV.absent => Val.str user_input
              | PV.null => Val.none
              | PV.str s => Val.str s
            if d.is_valid && decide (2 ≤ (pyStrip user_input).data.length) then
              (true, some d.message, pv)
            else if !d.is_valid then (false, some d.message, Val.none)
            else flexible_medical_validation field_name fd user_input

/-! ## `LLMHandler.validate_input` (the shipped oracle wrapper)

The langchain chain invocation and `json.loads` are external; their combined
outcome is a `ChainOutcome`: the chain raised, the response parsed as a JSON
dict, it parsed as some other JSON value (returned verbatim, hence not a
dict), or it failed to parse (the raw response text). -/

inductive ChainOutcome where
  | raised
  | jsonDict (d : VDict)
  | jsonOther
  | text (s : String)
deriving DecidableEq, Repr

/-- `LLMHandler.validate_input`: the post-processing applied to the chain's
outcome.  All exceptions raised inside the call are caught and converted to
an accepting verdict; a non-JSON response is given a substring-extracted
verdict when it mentions `is_valid`, and is otherwise accepted. -/
def llm_handler_validate_input (chain : ChainOutcome) (user_input : String) : LLMRet :=
  match chain with
  | ChainOutcome.raised =>
      LLMRet.dict
        { is_valid := true
          message := "Validation service encountered an error. Accepting input."
          processed_value := PV.str user_input }
  | ChainOutcome.jsonDict d => LLMRet.dict d
  | ChainOutcome.jsonOther => LLMRet.notDict
  | ChainOutcome.text s =>
      let low := pyLower s
      if pyContains low "is_valid" then
        let iv := pyContains low "true" && !pyContains low "false"
        LLMRet.dict
          { is_valid := iv
            message := "Response parsing error, but input appears " ++
              (if iv then "valid" else "invalid")
            processed_value := if iv then PV.str user_input else PV.null }
      else
        LLMRet.dict
          { is_valid := true
            message := "Unable to validate clearly, accepting input."
            processed_value := PV.str user_input }

/-- The oracle outcome `FormProcessor` observes when its `llm_interface` is
the shipped `LLMHandler` and the chain behaves as `chain`
(`LLMHandler.validate_input` itself never raises). -/
def llmHandlerCall (chain : ChainOutcome) (user_input : String) : LLMCall :=
  LLMCall.returns (llm_handler_validate_input chain user_input)

/-! ## The interactive state machine (`FormProcessor.process_form`)

The heap models Python object identity: `form_data` is an association list
from field name to heap address, `completed_form = dict(self.form_data)`
copies the address list, and in-place dict mutation is a heap update.  The
console is a list of input lines; the oracle environment is a list of
`LLMCall` outcomes, one consumed per validation attempt. -/

/-- One append-only chat-history record; absent keys are `none`/`false`. -/
structure ChatEntry where
  user : String := ""
  assistant : String := ""
  valid : Option Bool := Option.none
  field : Option String := Option.none
  value : Option Val := Option.none
  error : Option String := Option.none
  flagged : Bool := false
  is_context : Bool := false
deriving DecidableEq, Repr

structure PState where
  heap : List FieldRec
  inputs : List String
  oracle : List LLMCall
  chat : List ChatEntry
  needs_review : List String
deriving DecidableEq, Repr

def getFd (heap : List FieldRec) (addr : Nat) : FieldRec := heap.getD addr default

def popInput (st : PState) : String × PState :=
  match st.inputs with
  | [] => ("", st)
  | i :: rest => (i, { st with inputs := rest })

def popOracle (st : PState) : LLMCall × PState :=
  match st.oracle with
  | [] => (LLMCall.raises, st)
  | o :: rest => (o, { st with oracle := rest })

def setValue (st : PState) (addr : Nat) (v : Val) : PState :=
  { st with heap := st.heap.set addr { getFd st.heap addr with value := v } }

def pushChat (st : PState) (e : ChatEntry) : PState :=
  { st with chat := st.chat ++ [e] }

/-- `self.max_attempts`, set in `__init__` and never changed. -/
def max_attempts : Nat := 3

/-- `FormProcessor._get_field_examples` with `form_context = None`: the LLM
is not consulted and the default string is returned. -/
def get_field_examples : String := "Appropriate text for this field"

/-- `FormProcessor._create_interactive_field_prompt` (with
`form_context = None`; the returned `last_exchanges` only feed the oracle
prompt and are absorbed into the oracle environment). -/
def create_interactive_field_prompt (field_name : String) (fd : FieldRec) : String :=
  let required_text := if fd.required then "(Required)" else "(Optional)"
  let display_name := displayName field_name fd
  let p1 := "Please provide a value for " ++ display_name ++ ". " ++ fd.description ++
    " " ++ required_text ++ "\n"
  let p2 := p1 ++ "Examples: " ++ get_field_examples ++ "\n"
  let p3 :=
    if !fd.required then
      p2 ++ "If not applicable, you can type \x27none\x27 or leave it empty to skip this field."
    else p2
  if fd.type == "select" && !fd.options.isEmpty then
    (fd.options.map optText).enum.foldl
      (fun acc it => acc ++ "\n" ++ toString (it.1 + 1) ++ ". " ++ it.2)
      (p3 ++ "\nPlease select one of the following options (enter the number or option name):")
  else p3

/-- `FormProcessor._generate_guidance` (`attempt` is the counter after the
increment). -/
def generate_guidance (field_name : String) (fd : FieldRec) (attempt : Nat) : String :=
  if attempt == 1 then "For example: " ++ get_field_examples
  else if attempt == 2 then
    if fd.type == "date" then "You can enter a date like MM/DD/YYYY (e.g., 04/18/2025)."
    else if fd.type == "number" then "Please enter a numeric value (e.g., 42 or 7.5)."
    else if fd.type == "email" then
      "Please enter a valid email address (e.g., name@example.com)."
    else if fd.type == "select" then
      "You can enter the number or the exact text of one of the options."
    else
      "For " ++ displayName field_name fd ++
        ", you can enter any relevant information. If there is none, you can type \x27none\x27."
  else
    if fd.required then
      "This is a required field. Please provide any relevant information to continue."
    else "This field is optional. You can type \x27none\x27 or leave it empty to skip."

/-- The retry loop of `process_form` for one field.  The fuel is
`max_attempts - attempts`; the result carries the loop's `valid` flag and the
final `raw_input` binding. -/
def fieldLoop (field_name : String) (addr : Nat) (field_prompt : String)
    (raw : String) : Nat → PState → PState × Bool × String
  | 0, st => (st, false, raw)
  | Nat.succ k, st =>
      let p := popInput st
      let user_input := p.1
      let st1 := p.2
      let fd := getFd st1.heap addr
      if !fd.required && is_skip_request user_input then
        let msg := "I\x27ve marked " ++ format_field_name field_name ++
          " as \x27Not specified\x27. Moving on."
        let st2 := setValue st1 addr (Val.str "Not specified")
        let e : ChatEntry :=
          { user := user_input
            assistant := msg
            field := some field_name
            value := some (Val.str "Not specified") }
        (pushChat st2 e, true, raw)
      else
        let q := popOracle st1
        let r := validate_input_with_context field_name fd user_input q.1
        if r.1 then
          let st2 := setValue q.2 addr r.2.2
          let e : ChatEntry :=
            { user := user_input
              assistant := field_prompt
              valid := some true
              field := some field_name
              value := some r.2.2 }
          (pushChat st2 e, true, user_input)
        else
          let attempt := max_attempts - k
          let guidance := generate_guidance field_name fd attempt
          let vm := r.2.1.getD "None"
          let e : ChatEntry :=
            { user := user_input
              assistant := vm ++ " " ++ guidance
              valid := some false
              field := some field_name
              error := some vm }
          fieldLoop field_name addr field_prompt user_input k (pushChat q.2 e)

/-- The escalation block: store the last raw input verbatim, flag the field,
append to the review list and the chat history. -/
def escalate_field (field_name : String) (addr : Nat) (raw : String)
    (st : PState) : PState :=
  let fd := getFd st.heap addr
  let fd1 : FieldRec :=
    { fd with
      value := Val.str raw
      needs_review := some true
      review_reason := some "Maximum validation attempts reached" }
  let st1 := { st with heap := st.heap.set addr fd1 }
  let st2 := { st1 with needs_review := st1.needs_review ++ [field_name] }
  let e : ChatEntry :=
    { user := raw
      assistant := "I\x27ll accept your input and mark this for later review."
      valid := some false
      field := some field_name
      flagged := true }
  pushChat st2 e

/-- The body of the `for field_name, field_data in self.form_data.items()`
loop for one field. -/
def stepField (field_name : String) (addr : Nat) (st : PState) : PState :=
  let fd := getFd st.heap addr
  if fd.hidden || pyStartsWith field_name "_" then st
  else
    let field_prompt := create_interactive_field_prompt field_name fd
    let r := fieldLoop field_name addr field_prompt "" max_attempts st
    if r.2.1 then r.1 else escalate_field field_name addr r.2.2 r.1

def processFields : List (String × Nat) → PState → PState
  | [], st => st
  | (n, a) :: rest, st => processFields rest (stepField n a st)

/-- An entry of the returned completed form: a reference to a (shared) field
dict on the heap, or the synthetic `_review_status` pseudo-field. -/
inductive Entry where
  | ref (addr : Nat)
  | review (fields_needing_review : List String)
deriving DecidableEq, Repr

/-- Python dict assignment on the completed form: rebind the key in place if
present, else append. -/
def dictSet : List (String × Entry) → String → Entry → List (String × Entry)
  | [], k, v => [(k, v)]
  | (k', v') :: rest, k, v =>
      if k' == k then (k, v) :: rest else (k', v') :: dictSet rest k v

structure CompletedOut where
  entries : List (String × Entry)
  state : PState
deriving DecidableEq, Repr

/-- The sample field dict substituted when no form data was loaded. -/
def sampleField : FieldRec :=
  { type := "text"
    value := Val.str ""
    placeholder := some "Enter patient name"
    required := true
    description := "Full name as it appears on medical records" }

def runForm (form_data : List (String × Nat)) (st : PState) : CompletedOut :=
  let st1 := processFields form_data st
  let entries := form_data.map fun p => (p.1, Entry.ref p.2)
  { entries :=
      if st1.needs_review.isEmpty then entries
      else dictSet entries "_review_status" (Entry.review st1.needs_review)
    state := st1 }

/-- The processor state at the start of `process_form` (fresh chat history
and review list, as in a fresh `FormProcessor`). -/
def initState (heap0 : List FieldRec) (inputs0 : List String)
    (oracle0 : List LLMCall) : PState :=
  { heap := heap0, inputs := inputs0, oracle := oracle0, chat := [], needs_review := [] }

/-- `FormProcessor.process_form` with `form_context = None`: an empty loaded
form is replaced by the sample data (allocating a fresh dict); then each
field is processed in order and the review status is attached. -/
def process_form (form_data : List (String × Nat)) (heap : List FieldRec)
    (inputs : List String) (oracle : List LLMCall) : CompletedOut :=
  if form_data.isEmpty then
    runForm [("patient_name", heap.length)] (initState (heap ++ [sampleField]) inputs oracle)
  else
    runForm form_data (initState heap inputs oracle)

/-! ## Auxiliary predicates and fixtures used by the theorems -/

/-- A field record with the `value`, `needs_review` and `review_reason` keys
blanked: two records agree under `stripVNR` exactly when they agree on every
other key. -/
def stripVNR (r : FieldRec) : FieldRec :=
  { r with value := Val.none, needs_review := Option.none, review_reason := Option.none }

/-- The oracle outcome never supplies an empty (or null) `processed_value`. -/
def pvOk (llm : LLMCall) : Prop :=
  ∀ d, llm = LLMCall.returns (LLMRet.dict d) →
    d.processed_value = PV.absent ∨ ∃ s, d.processed_value = PV.str s ∧ s ≠ ""

/-- Every option of the field renders a nonempty display text
(`opt.get('text', opt.get('value', ''))`). -/
def optsOk (fd : FieldRec) : Prop :=
  ∀ t ∈ fd.options.map optText, t ≠ ""

/-- An oracle environment entry whose dict verdict rejects the input. -/
def oracleReject : LLMCall :=
  LLMCall.returns (LLMRet.dict { is_valid := false, message := "bad" })

/-- An oracle environment entry whose dict verdict accepts with `v`. -/
def oracleAccept (v : String) : LLMCall :=
  LLMCall.returns (LLMRet.dict { is_valid := true, processed_value := PV.str v })

/-- Fixture: a two-field form whose second field carries a `conditional` on
the first. -/
def condHeap : List FieldRec :=
  [{ type := "text", required := true },
   { type := "text", conditional := some ⟨"symptoms_present", ["yes"]⟩ }]

def condForm : List (String × Nat) := [("symptoms_present", 0), ("symptom_details", 1)]

def condRun : CompletedOut :=
  process_form condForm condHeap ["no", "headache"]
    [oracleAccept "no", oracleAccept "headache"]

/-- Fixture: a single required text field driven into escalation. -/
def escHeap : List FieldRec := [{ type := "text", required := true }]

def escRun : CompletedOut :=
  process_form [("patient_name", 0)] escHeap ["a1x", "a2x", "a3x"]
    [oracleReject, oracleReject, oracleReject]

/-- Fixture: the gender select field of the examples (two options). -/
def mfField : FieldRec :=
  { type := "select",
    options := [⟨some "M", some "Male"⟩, ⟨some "F", some "Female"⟩] }

/-- Fixture: a select field with four options. -/
def greekField : FieldRec :=
  { type := "select",
    options := [⟨some "a", some "Alpha"⟩, ⟨some "b", some "Beta"⟩,
                ⟨some "c", some "Gamma"⟩, ⟨some "d", some "Delta"⟩] }

/-- The chat record appended by a failed validation attempt (`attempt` is the
counter after the increment). -/
def fail_entry (field_name : String) (fd : FieldRec) (i : String) (o : LLMCall)
    (attempt : Nat) : ChatEntry :=
  { user := i
    assistant := (validate_input_with_context field_name fd i o).2.1.getD "None" ++
      " " ++ generate_guidance field_name fd attempt
    valid := some false
    field := some field_name
    error := some ((validate_input_with_context field_name fd i o).2.1.getD "None") }

/-! ## Basic facts about the string primitives -/

theorem data_append (s t : String) : (s ++ t).data = s.data ++ t.data := by
  cases s
  cases t
  rfl

theorem eq_empty_of_data_eq_nil {s : String} (h : s.data = []) : s = "" := by
  cases s
  simp_all

theorem append_ne_empty_right (s t : String) (h : t ≠ "") : s ++ t ≠ "" := by
  intro hc
  apply h
  apply eq_empty_of_data_eq_nil
  have := congrArg String.data hc
  rw [data_append] at this
  exact (List.append_eq_nil.mp this).2

theorem pyUpper_ne_empty {s : String} (h : s ≠ "") : pyUpper s ≠ "" := by
  intro hc
  apply h
  apply eq_empty_of_data_eq_nil
  have := congrArg String.data hc
  simpa [pyUpper] using this

theorem ne_empty_of_pyTruthy {s : String} (h : pyTruthy s = true) : s ≠ "" := by
  intro hc
  subst hc
  simp [pyTruthy] at h

theorem pyTruthy_of_ne_empty {s : String} (h : s ≠ "") : pyTruthy s = true := by
  cases s with
  | mk l =>
    cases l with
    | nil => exact absurd rfl h
    | cons c cs => rfl

theorem input_ne_empty_of_strip {s : String} (h : pyTruthy (pyStrip s) = true) :
    s ≠ "" := by
  intro hc
  subst hc
  simp [pyTruthy, pyStrip] at h

/-! ## C6 — number fields and declared min/max bounds -/

/-- C6 counterexample: for a number field declaring `validation={min:0,max:10}`,
the input `"15"` is judged VALID with value `"15"` by
`_flexible_medical_validation` (the deterministic number validator is the
bare regex `^-?\d*\.?\d+$`; the declared bounds are never read), so no
"bounds" message is produced, contradicting the claim. -/
theorem C6_number_15_accepted_despite_bounds :
    flexible_medical_validation "score"
      { type := "number", validation := some { min := some 0, max := some 10 } }
      "15" = (true, Option.none, Val.str "15") := by
  rfl

/-- C6 (amended): for every number field (whatever `validation` declares),
any input whose stripped form is not a common medical term is judged solely
by the numeric-shape regex: a match is valid with the stripped input as the
value, a non-match is invalid with the generic "valid number" message.  The
field's declared min/max are never consulted and no bounds message exists. -/
theorem C6_amended_number_regex_only (field_name : String) (fd : FieldRec)
    (input : String) (hty : fd.type = "number")
    (hterm : common_medical_terms.contains (pyLower (pyStrip input)) = false) :
    flexible_medical_validation field_name fd input =
      if matchesNumberRe (pyStrip input) then
        (true, Option.none, Val.str (pyStrip input))
      else
        (false,
         some ("Please enter a valid number for " ++ displayName field_name fd ++ "."),
         Val.none) := by
  unfold flexible_medical_validation
  rw [hty]
  simp only [hterm]
  simp

theorem C6_amended_witness :
    flexible_medical_validation "heart_rate"
      { type := "number", validation := some { min := some 0, max := some 10 } }
      "15" = (true, Option.none, Val.str "15") := by
  have h := C6_amended_number_regex_only "heart_rate"
    { type := "number", validation := some { min := some 0, max := some 10 } }
    "15" rfl (by rfl)
  simpa using h

/-! ## C7 — dosage fields -/

/-- C7 counterexample: there is no dosage validator; a `dosage`-typed field
falls through to the accept-everything default branch of
`_flexible_medical_validation`, so `"6000mg"` is judged VALID with value
`"6000mg"` — no unit table, no "exceeds maximum 5000mg" message. -/
theorem C7_dosage_6000mg_accepted :
    flexible_medical_validation "medication_dosage" { type := "dosage" } "6000mg" =
      (true, Option.none, Val.str "6000mg") := by
  rfl

/-- C7 (amended): `dosage` is not a recognised type in
`_flexible_medical_validation`; any input on a dosage field whose stripped
form is not a common medical term is accepted verbatim (stripped), with no
`<number><unit>` shape requirement and no per-unit ceiling:
in particular both `"6000mg"` and `"500mg"` are valid. -/
theorem C7_amended_dosage_accepts_everything (field_name : String) (fd : FieldRec)
    (input : String) (hty : fd.type = "dosage")
    (hterm : common_medical_terms.contains (pyLower (pyStrip input)) = false) :
    flexible_medical_validation field_name fd input =
      (true, Option.none, Val.str (pyStrip input)) := by
  unfold flexible_medical_validation
  rw [hty]
  simp only [hterm]
  simp

theorem C7_amended_witness :
    flexible_medical_validation "medication_dosage" { type := "dosage" } "500mg" =
      (true, Option.none, Val.str "500mg") := by
  exact C7_amended_dosage_accepts_everything "medication_dosage" { type := "dosage" }
    "500mg" rfl (by rfl)

/-! ## C8 — date fields -/

/-- C8 counterexample: date validation is a prefix-shape regex with no
calendar check and no ISO normalization: `"2025-13-40"` is judged VALID
(shape `\d{4}-\d{1,2}-\d{1,2}`) and `"04/18/2025"` is returned verbatim,
not normalized to `"2025-04-18"`. -/
theorem C8_date_shape_only :
    flexible_medical_validation "exam_date" { type := "date" } "2025-13-40" =
      (true, Option.none, Val.str "2025-13-40") ∧
    flexible_medical_validation "exam_date" { type := "date" } "04/18/2025" =
      (true, Option.none, Val.str "04/18/2025") := by
  exact ⟨rfl, rfl⟩

/-- C8 (amended): for a date field, any input whose stripped form is not a
common medical term is valid iff one of the three prefix regexes matches,
and a valid input is stored verbatim (stripped) — never normalized; a
non-match yields the generic "valid date format" message. -/
theorem C8_amended_date_regex_only (field_name : String) (fd : FieldRec)
    (input : String) (hty : fd.type = "date")
    (hterm : common_medical_terms.contains (pyLower (pyStrip input)) = false) :
    flexible_medical_validation field_name fd input =
      if dateShapeMatch (pyStrip input) then
        (true, Option.none, Val.str (pyStrip input))
      else
        (false,
         some ("Please enter a valid date format for " ++ displayName field_name fd ++ "."),
         Val.none) := by
  unfold flexible_medical_validation
  rw [hty]
  simp only [hterm]
  simp

theorem C8_amended_witness :
    flexible_medical_validation "exam_date" { type := "date" } "hello" =
      (false, some "Please enter a valid date format for Exam Date.", Val.none) := by
  have h := C8_amended_date_regex_only "exam_date" { type := "date" } "hello"
    rfl (by rfl)
  simpa using h

/-! ## C5 — select fields with zero matches -/

/-- C5 counterexample: the select matcher has a third fuzzy rule the claim
omits — an option text that merely STARTS with the first character of the
input counts as a match.  `"Mxyz"` against the two options Male/Female is not a
1-based index, not an exact value/text match, and not a substring match in
either direction, yet it is ACCEPTED as `"M"` (single first-character match
with "Male"), where the claim requires an invalid verdict re-listing the
options (the field has ≤ 3 options). -/
theorem C5_first_char_match_accepts :
    validate_select_input mfField "Mxyz" = (true, Option.none, Val.str "M") ∧
    pyInt "Mxyz" = Option.none ∧
    ((mfField.options.map optValue).contains "Mxyz" = false ∧
     (mfField.options.map optText).contains "Mxyz" = false) ∧
    (mfField.options.map optText).all
      (fun t => !pyContains (pyLower t) (pyLower "Mxyz") &&
        !pyContains (pyLower "Mxyz") (pyLower t)) = true := by
  exact ⟨rfl, rfl, ⟨rfl, rfl⟩, rfl⟩

/-- C5 (amended): when the input is not empty, not parseable as an integer,
not an exact value/text match, AND produces an empty fuzzy-match list (no
substring match in either direction and no option text starting with the
first character of the input), then with ≤ 3 options the verdict is invalid with
the option list re-displayed, and with > 3 options the input is accepted
verbatim with the `" (needs verification)"` suffix. -/
theorem C5_amended_zero_match_behavior (fd : FieldRec) (input : String)
    (hne : pyTruthy (pyStrip input) = true)
    (hint : pyInt input = Option.none)
    (hval : (fd.options.map optValue).contains input = false)
    (htxt : (fd.options.map optText).contains input = false)
    (hm : selMatches input (fd.options.map optText) = []) :
    validate_select_input fd input =
      if fd.options.length ≤ 3 then
        (false,
         some ("Invalid selection. Please choose one of these options:\n" ++
           numberedLines (fd.options.map optText)),
         Val.none)
      else (true, Option.none, Val.str (input ++ " (needs verification)")) := by
  unfold validate_select_input
  simp only [hne, hint, hval, htxt, hm]
  simp

theorem C5_amended_witness :
    pyTruthy (pyStrip "zzz") = true ∧
    validate_select_input greekField "zzz" =
      (true, Option.none, Val.str "zzz (needs verification)") := by
  refine ⟨rfl, ?_⟩
  have h := C5_amended_zero_match_behavior greekField "zzz" rfl rfl rfl rfl rfl
  simpa using h

/-! ## C9 — the abbreviation shortcut applies to every non-select type -/

/-- Helper: an abbreviation-dictionary key is nonempty. -/
theorem medical_abbreviations_key_ne_empty {s : String} {e : String}
    (h : medical_abbreviations s = some e) : s ≠ "" := by
  intro hc
  subst hc
  simp [medical_abbreviations] at h

/-- C9: for every field whose type is not `select`, an input whose stripped,
lowered form is a key of the medical-abbreviation dictionary is accepted
immediately with value `upper(input) ++ " (" ++ expansion ++ ")"`, for EVERY
oracle outcome (the oracle is never consulted) and regardless of the field
type (date, number, email, ... included) — the shortcut is not restricted to
text fields. -/
theorem C9_abbreviation_shortcut_all_types (field_name : String) (fd : FieldRec)
    (input : String) (llm : LLMCall) (expanded : String)
    (hty : (fd.type == "select") = false)
    (habb : medical_abbreviations (pyLower (pyStrip input)) = some expanded) :
    validate_input_with_context field_name fd input llm =
      (true, Option.none, Val.str (pyUpper input ++ " (" ++ expanded ++ ")")) := by
  have hne : pyTruthy (pyStrip input) = true := by
    apply pyTruthy_of_ne_empty
    intro hc
    have : pyLower (pyStrip input) = "" := by rw [hc]; rfl
    rw [this] at habb
    exact medical_abbreviations_key_ne_empty habb rfl
  unfold validate_input_with_context
  simp only [hne, hty, habb]
  simp

theorem C9_witness :
    validate_input_with_context "procedure_date" { type := "date", required := true }
      "mri" LLMCall.raises =
      (true, Option.none, Val.str "MRI (Magnetic Resonance Imaging)") := by
  have h := C9_abbreviation_shortcut_all_types "procedure_date"
    { type := "date", required := true } "mri" LLMCall.raises
    "Magnetic Resonance Imaging" rfl rfl
  simpa using h

/-! ## C4 — oracle failure is not uniformly fail-open -/

/-- C4 counterexample: an unparseable (non-JSON) oracle response that
contains the substring `is_valid` but not `true` is converted by
`LLMHandler.validate_input` into a REJECTING verdict, so the input is
rejected on account of the malformed oracle response — not accepted as the
claim states. -/
theorem C4_unparseable_response_rejects :
    llm_handler_validate_input (ChainOutcome.text "is_valid: false") "John Smith" =
      LLMRet.dict
        { is_valid := false
          message := "Response parsing error, but input appears invalid"
          processed_value := PV.null } ∧
    validate_input_with_context "patient_name" { type := "text", required := true }
      "John Smith" (llmHandlerCall (ChainOutcome.text "is_valid: false") "John Smith") =
      (false, some "Response parsing error, but input appears invalid", Val.none) := by
  exact ⟨rfl, rfl⟩

/-- C4 (amended): with the shipped `LLMHandler`, an exception raised inside
the LLM call is caught and converted to an accepting verdict carrying the
raw input, and a non-JSON response that does not mention `is_valid` is
likewise accepted with the raw input (both shown here for any non-select
field, input of stripped length ≥ 2 that is not an abbreviation key); but a
non-JSON response containing `is_valid` gets a substring-extracted verdict
(`true` present and `false` absent) which can reject, and an exception from
the validator interface itself falls back to the deterministic
`_flexible_medical_validation`, which can also reject. -/
theorem C4_amended_fail_open_scope (field_name : String) (fd : FieldRec)
    (input : String) (resp : String)
    (hty : (fd.type == "select") = false)
    (hlen : 2 ≤ (pyStrip input).data.length)
    (habb : medical_abbreviations (pyLower (pyStrip input)) = Option.none) :
    validate_input_with_context field_name fd input
        (llmHandlerCall ChainOutcome.raised input) =
      (true, some "Validation service encountered an error. Accepting input.",
       Val.str input) ∧
    (pyContains (pyLower resp) "is_valid" = false →
      validate_input_with_context field_name fd input
          (llmHandlerCall (ChainOutcome.text resp) input) =
        (true, some "Unable to validate clearly, accepting input.", Val.str input)) := by
  have hne : pyTruthy (pyStrip input) = true := by
    unfold pyTruthy
    cases h : (pyStrip input).data with
    | nil => rw [h] at hlen; simp at hlen
    | cons c cs => simp
  have hlen2 : ¬ (pyStrip input).length < 2 := by
    have h2 : 2 ≤ (pyStrip input).length := hlen
    omega
  constructor
  · unfold validate_input_with_context llmHandlerCall llm_handler_validate_input
    simp only [hne, hty, habb]
    simp [hlen, hlen2]
  · intro hresp
    unfold validate_input_with_context llmHandlerCall llm_handler_validate_input
    simp only [hne, hty, habb, hresp]
    simp [hlen, hlen2]

theorem C4_amended_witness :
    validate_input_with_context "findings" { type := "text", required := true }
        "normal findings" (llmHandlerCall ChainOutcome.raised "normal findings") =
      (true, some "Validation service encountered an error. Accepting input.",
       Val.str "normal findings") ∧
    validate_input_with_context "findings" { type := "text", required := true }
        "normal findings"
        (llmHandlerCall (ChainOutcome.text "gibberish &%$") "normal findings") =
      (true, some "Unable to validate clearly, accepting input.",
       Val.str "normal findings") := by
  have h := C4_amended_fail_open_scope "findings" { type := "text", required := true }
    "normal findings" "gibberish &%$" rfl (by decide) rfl
  exact ⟨h.1, h.2 rfl⟩

/-! ## C2 — required fields and empty accepted values -/

theorem getD_mem_of_lt {α : Type} (l : List α) (i : Nat) (d : α)
    (h : i < l.length) : l.getD i d ∈ l := by
  induction l generalizing i with
  | nil => simp at h
  | cons a t ih =>
      cases i with
      | zero => simp
      | succ j =>
          simp only [List.getD_cons_succ]
          exact List.mem_cons_of_mem a (ih j (by simpa using h))

theorem fst_lt_of_mem_enumFrom {α : Type} (l : List α) (n : Nat) (x : Nat × α)
    (h : x ∈ l.enumFrom n) : x.1 < n + l.length := by
  induction l generalizing n with
  | nil => simp [List.enumFrom] at h
  | cons a t ih =>
      simp only [List.enumFrom, List.mem_cons] at h
      rcases h with h | h
      · subst h
        simp
      · have := ih (n + 1) h
        simp only [List.length_cons]
        omega

theorem fst_lt_of_mem_enum {α : Type} (l : List α) (x : Nat × α)
    (h : x ∈ l.enum) : x.1 < l.length := by
  have := fst_lt_of_mem_enumFrom l 0 x h
  simpa using this

/-- Helper: an accepted select verdict carries a nonempty value, provided the
input is nonempty after stripping and every option renders nonempty text. -/
theorem validate_select_accepted_nonempty (fd : FieldRec) (input : String)
    (m : Option String) (v : Val)
    (hne : pyTruthy (pyStrip input) = true)
    (hopts : optsOk fd)
    (h : validate_select_input fd input = (true, m, v)) :
    ∃ s, v = Val.str s ∧ s ≠ "" := by
  have hin : input ≠ "" := input_ne_empty_of_strip hne
  unfold validate_select_input at h
  rw [hne] at h
  simp only [Bool.not_true, Bool.false_eq_true, if_false] at h
  cases hpi : pyInt input with
  | some n =>
      rw [hpi] at h
      try simp only at h
      by_cases hr : (0 ≤ n - 1 ∧ n - 1 < (fd.options.length : Int))
      · rw [if_pos hr] at h
        simp only [Prod.mk.injEq] at h
        refine ⟨_, h.2.2.symm, ?_⟩
        split
        · next htr => exact ne_empty_of_pyTruthy htr
        · apply hopts
          apply getD_mem_of_lt
          rw [List.length_map]
          omega
      · rw [if_neg hr] at h
        simp at h
  | none =>
      rw [hpi] at h
      try simp only at h
      cases hcv : (fd.options.map optValue).contains input with
      | true =>
          simp only [hcv, if_true] at h
          simp only [Prod.mk.injEq] at h
          exact ⟨_, h.2.2.symm, hin⟩
      | false =>
          simp only [hcv, Bool.false_eq_true, if_false] at h
          cases hct : (fd.options.map optText).contains input with
          | true =>
              simp only [hct, if_true] at h
              simp only [Prod.mk.injEq] at h
              refine ⟨_, h.2.2.symm, ?_⟩
              split
              · next htr => exact ne_empty_of_pyTruthy htr
              · exact hin
          | false =>
              simp only [hct, Bool.false_eq_true, if_false] at h
              cases hm1 : ((selMatches input (fd.options.map optText)).length == 1) with
              | true =>
                  simp only [hm1, if_true] at h
                  simp only [Prod.mk.injEq] at h
                  refine ⟨_, h.2.2.symm, ?_⟩
                  split
                  · next htr => exact ne_empty_of_pyTruthy htr
                  · apply hopts
                    apply getD_mem_of_lt
                    cases hml : selMatches input (fd.options.map optText) with
                    | nil => rw [hml] at hm1; simp at hm1
                    | cons x t =>
                        have hx : x ∈ selMatches input (fd.options.map optText) := by
                          rw [hml]
                          exact List.mem_cons_self x t
                        have hx2 : x ∈ (fd.options.map optText).enum :=
                          List.mem_of_mem_filter hx
                        have hlt := fst_lt_of_mem_enum _ x hx2
                        simpa using hlt
              | false =>
                  simp only [hm1, Bool.false_eq_true, if_false] at h
                  by_cases hgt : 1 < (selMatches input (fd.options.map optText)).length
                  · rw [if_pos hgt] at h
                    simp at h
                  · rw [if_neg hgt] at h
                    by_cases hle : fd.options.length ≤ 3
                    · rw [if_pos hle] at h
                      simp at h
                    · rw [if_neg hle] at h
                      simp only [Prod.mk.injEq] at h
                      refine ⟨_, h.2.2.symm, ?_⟩
                      intro hc
                      have := congrArg String.data hc
                      simp [data_append] at this

/-- Helper: an accepted flexible-validation verdict carries a nonempty value,
provided the input is nonempty after stripping. -/
theorem flexible_accepted_nonempty (field_name : String) (fd : FieldRec)
    (input : String) (m : Option String) (v : Val)
    (hne : pyTruthy (pyStrip input) = true)
    (h : flexible_medical_validation field_name fd input = (true, m, v)) :
    ∃ s, v = Val.str s ∧ s ≠ "" := by
  have hs : pyStrip input ≠ "" := ne_empty_of_pyTruthy hne
  unfold flexible_medical_validation at h
  cases hct : common_medical_terms.contains (pyLower (pyStrip input)) with
  | true =>
      simp only [hct, if_true] at h
      simp only [Prod.mk.injEq] at h
      exact ⟨_, h.2.2.symm, pyUpper_ne_empty hs⟩
  | false =>
      simp only [hct, Bool.false_eq_true, if_false] at h
      split at h
      · -- date
        split at h
        · simp only [Prod.mk.injEq] at h
          exact ⟨_, h.2.2.symm, hs⟩
        · simp only [Prod.mk.injEq] at h
          exact absurd h.1 (by simp)
      · split at h
        · -- number
          split at h
          · simp only [Prod.mk.injEq] at h
            exact ⟨_, h.2.2.symm, hs⟩
          · simp only [Prod.mk.injEq] at h
            exact absurd h.1 (by simp)
        · split at h
          · -- email
            split at h
            · simp only [Prod.mk.injEq] at h
              exact ⟨_, h.2.2.symm, hs⟩
            · simp only [Prod.mk.injEq] at h
              exact absurd h.1 (by simp)
          · split at h
            · -- text / textarea
              split at h
              · simp only [Prod.mk.injEq] at h
                exact ⟨_, h.2.2.symm, hs⟩
              · simp only [Prod.mk.injEq] at h
                exact absurd h.1 (by simp)
            · -- default: accept verbatim
              simp only [Prod.mk.injEq] at h
              exact ⟨_, h.2.2.symm, hs⟩

/-- C2 counterexample: the LLM verdict path stores the oracle dict value
`processed_value` unchanged, so a verdict `is_valid: true` with an empty
`processed_value` records the empty string for a REQUIRED field on non-empty
input — an acceptance path the claim says cannot record an empty value. -/
theorem C2_llm_verdict_records_empty :
    validate_input_with_context "clinical_details" { type := "text", required := true }
      "ab"
      (llmHandlerCall
        (ChainOutcome.jsonDict { is_valid := true, message := "ok", processed_value := PV.str "" })
        "ab") =
      (true, some "ok", Val.str "") := by
  rfl

/-- C2 (amended): for a required field, empty or whitespace-only input is
always rejected before any type-specific logic; and provided the oracle
verdict never supplies an empty or null `processed_value` (`pvOk`) and every
select option renders nonempty text (`optsOk`), every accepted verdict
carries a nonempty string value — the skip-phrase path requires
`required=false` and the abbreviation path always appends the expansion, so
only a degenerate oracle value or select option can record an empty value. -/
theorem C2_amended_required_nonempty (field_name : String) (fd : FieldRec)
    (input : String) (llm : LLMCall)
    (hreq : fd.required = true) (hpv : pvOk llm) (hopts : optsOk fd) :
    (pyTruthy (pyStrip input) = false →
      (validate_input_with_context field_name fd input llm).1 = false) ∧
    (∀ m v, validate_input_with_context field_name fd input llm = (true, m, v) →
      ∃ s, v = Val.str s ∧ s ≠ "") := by
  constructor
  · intro hempty
    unfold validate_input_with_context
    simp [hreq, hempty]
  · intro m v h
    cases hne : pyTruthy (pyStrip input) with
    | false =>
        unfold validate_input_with_context at h
        rw [hreq, hne] at h
        simp at h
    | true =>
        have hin : input ≠ "" := input_ne_empty_of_strip hne
        unfold validate_input_with_context at h
        rw [hreq, hne] at h
        simp only [Bool.not_true, Bool.and_false, Bool.false_eq_true, if_false] at h
        cases hsel : (fd.type == "select") with
        | true =>
            simp only [hsel, if_true] at h
            exact validate_select_accepted_nonempty fd input m v hne hopts h
        | false =>
            simp only [hsel, Bool.false_eq_true, if_false] at h
            cases habb : medical_abbreviations (pyLower (pyStrip input)) with
            | some expanded =>
                rw [habb] at h
                try simp only at h
                simp only [Prod.mk.injEq] at h
                refine ⟨_, h.2.2.symm, ?_⟩
                intro hc
                have := congrArg String.data hc
                simp [data_append] at this
            | none =>
                rw [habb] at h
                try simp only at h
                cases llm with
                | raises =>
                    exact flexible_accepted_nonempty field_name fd input m v hne h
                | returns r =>
                    cases r with
                    | notDict =>
                        exact flexible_accepted_nonempty field_name fd input m v hne h
                    | dict d =>
                        try simp only at h
                        cases hiv : (d.is_valid && decide (2 ≤ (pyStrip input).data.length)) with
                        | true =>
                            simp only [hiv, if_true] at h
                            rcases hpv d rfl with hab | ⟨s2, hsv, hsne⟩
                            · rw [hab] at h
                              try simp only at h
                              simp only [Prod.mk.injEq] at h
                              exact ⟨input, h.2.2.symm, hin⟩
                            · rw [hsv] at h
                              try simp only at h
                              simp only [Prod.mk.injEq] at h
                              exact ⟨s2, h.2.2.symm, hsne⟩
                        | false =>
                            simp only [hiv, Bool.false_eq_true, if_false] at h
                            cases hnv : (!d.is_valid) with
                            | true =>
                                simp only [hnv, if_true] at h
                                simp only [Prod.mk.injEq] at h
                                exact absurd h.1 (by simp)
                            | false =>
                                simp only [hnv, Bool.false_eq_true, if_false] at h
                                exact flexible_accepted_nonempty field_name fd input m v hne h

theorem C2_amended_witness :
    (validate_input_with_context "patient_name" { type := "text", required := true }
        "   " (oracleAccept "x")).1 = false ∧
    (∃ s, Val.str "John Smith" = Val.str s ∧ s ≠ "") := by
  have hpv : pvOk (oracleAccept "x") := by
    intro d hd
    cases hd
    exact Or.inr ⟨"x", rfl, by decide⟩
  have hpv2 : pvOk (oracleAccept "John Smith") := by
    intro d hd
    cases hd
    exact Or.inr ⟨"John Smith", rfl, by decide⟩
  have hopts : optsOk { type := "text", required := true } := by
    intro t ht
    simp [FieldRec.options] at ht
  constructor
  · exact (C2_amended_required_nonempty "patient_name"
      { type := "text", required := true } "   " (oracleAccept "x") rfl hpv hopts).1 rfl
  · exact (C2_amended_required_nonempty "patient_name"
      { type := "text", required := true } "John Smith" (oracleAccept "John Smith")
      rfl hpv2 hopts).2 (some "") (Val.str "John Smith") rfl

/-! ## List and state-component lemmas for the process machinery -/

theorem listGetD_set_ne {α : Type} (l : List α) (i j : Nat) (x d : α)
    (h : j ≠ i) : (l.set i x).getD j d = l.getD j d := by
  induction l generalizing i j with
  | nil => simp
  | cons a t ih =>
      cases i with
      | zero =>
          cases j with
          | zero => exact absurd rfl h
          | succ j2 => simp
      | succ i2 =>
          cases j with
          | zero => simp
          | succ j2 =>
              simp only [List.set_cons_succ, List.getD_cons_succ]
              exact ih i2 j2 (fun hc => h (by rw [hc]))

theorem listGetD_set_self {α : Type} (l : List α) (i : Nat) (x d : α)
    (h : i < l.length) : (l.set i x).getD i d = x := by
  induction l generalizing i with
  | nil => simp at h
  | cons a t ih =>
      cases i with
      | zero => simp
      | succ i2 =>
          simp only [List.set_cons_succ, List.getD_cons_succ]
          exact ih i2 (by simpa using h)

theorem list_set_oob {α : Type} (l : List α) (i : Nat) (x : α)
    (h : ¬ i < l.length) : l.set i x = l := by
  induction l generalizing i with
  | nil => simp
  | cons a t ih =>
      cases i with
      | zero => simp at h
      | succ i2 =>
          simp only [List.set_cons_succ, List.cons.injEq, true_and]
          exact ih i2 (by simp at h; omega)

theorem getFd_set_ne (heap : List FieldRec) (i j : Nat) (x : FieldRec)
    (h : j ≠ i) : getFd (heap.set i x) j = getFd heap j :=
  listGetD_set_ne heap i j x default h

theorem getFd_set_self (heap : List FieldRec) (i : Nat) (x : FieldRec)
    (h : i < heap.length) : getFd (heap.set i x) i = x :=
  listGetD_set_self heap i x default h

/-- Updating only the `value`/`needs_review`/`review_reason` keys of the dict
at `addr` leaves every `stripVNR` view unchanged. -/
theorem stripVNR_set (heap : List FieldRec) (addr : Nat) (x : FieldRec)
    (hx : stripVNR x = stripVNR (getFd heap addr)) (a : Nat) :
    stripVNR (getFd (heap.set addr x) a) = stripVNR (getFd heap a) := by
  by_cases hlt : addr < heap.length
  · by_cases heq : a = addr
    · subst heq
      rw [getFd_set_self heap a x hlt, hx]
    · rw [getFd_set_ne heap addr a x heq]
  · rw [list_set_oob heap addr x hlt]

theorem stripVNR_value (r : FieldRec) (v : Val) :
    stripVNR { r with value := v } = stripVNR r := rfl

theorem chat_append_exists {st : PState} {e : ChatEntry} {l : List ChatEntry}
    {suf : List ChatEntry} (h : l = (pushChat st e).chat ++ suf) :
    ∃ s2, l = st.chat ++ s2 := by
  refine ⟨[e] ++ suf, ?_⟩
  rw [h]
  simp [pushChat]

theorem popInput_eq (st : PState) :
    popInput st = (st.inputs.headD "", { st with inputs := st.inputs.tail }) := by
  rcases st with ⟨h, i, o, c, n⟩
  cases i <;> rfl

theorem popOracle_eq (st : PState) :
    popOracle st = (st.oracle.headD LLMCall.raises, { st with oracle := st.oracle.tail }) := by
  rcases st with ⟨h, i, o, c, n⟩
  cases o <;> rfl

/-- One field retry loop never touches the review list, preserves the heap
length, writes no address but its own, changes only the
`value`/`needs_review`/`review_reason` keys, and only appends to the chat. -/
theorem fieldLoop_invariants (field_name : String) (addr : Nat) (p : String) :
    ∀ (k : Nat) (raw : String) (st : PState),
      (fieldLoop field_name addr p raw k st).1.needs_review = st.needs_review ∧
      (fieldLoop field_name addr p raw k st).1.heap.length = st.heap.length ∧
      (∀ a, a ≠ addr →
        getFd (fieldLoop field_name addr p raw k st).1.heap a = getFd st.heap a) ∧
      (∀ a, stripVNR (getFd (fieldLoop field_name addr p raw k st).1.heap a) =
        stripVNR (getFd st.heap a)) ∧
      (∃ suf, (fieldLoop field_name addr p raw k st).1.chat = st.chat ++ suf) := by
  intro k
  induction k with
  | zero =>
      intro raw st
      exact ⟨rfl, rfl, fun a _ => rfl, fun a => rfl, ⟨[], by simp [fieldLoop]⟩⟩
  | succ k ih =>
      intro raw st
      simp only [fieldLoop, popInput_eq, popOracle_eq]
      split
      · -- optional-skip branch
        refine ⟨rfl, ?_, ?_, ?_, ⟨_, rfl⟩⟩
        · simp [pushChat, setValue]
        · intro a ha
          simp only [pushChat, setValue]
          exact getFd_set_ne _ _ _ _ ha
        · intro a
          simp only [pushChat, setValue]
          exact stripVNR_set _ _ _ (stripVNR_value _ _) a
      · split
        · -- accepted branch
          refine ⟨rfl, ?_, ?_, ?_, ⟨_, rfl⟩⟩
          · simp [pushChat, setValue]
          · intro a ha
            simp only [pushChat, setValue]
            exact getFd_set_ne _ _ _ _ ha
          · intro a
            simp only [pushChat, setValue]
            exact stripVNR_set _ _ _ (stripVNR_value _ _) a
        · -- failed attempt: recurse
          obtain ⟨hn, hl, ho, hs, ⟨suf, hc⟩⟩ := ih (st.inputs.headD "") _
          exact ⟨hn, hl, ho, hs, chat_append_exists hc⟩

/-- The escalation block appends exactly the field name to the review list,
rewrites only the escalated address (and there only the
`value`/`needs_review`/`review_reason` keys), and appends one chat entry. -/
theorem escalate_invariants (field_name : String) (addr : Nat) (raw : String)
    (st : PState) :
    (escalate_field field_name addr raw st).needs_review =
      st.needs_review ++ [field_name] ∧
    (escalate_field field_name addr raw st).heap.length = st.heap.length ∧
    (∀ a, a ≠ addr →
      getFd (escalate_field field_name addr raw st).heap a = getFd st.heap a) ∧
    (∀ a, stripVNR (getFd (escalate_field field_name addr raw st).heap a) =
      stripVNR (getFd st.heap a)) ∧
    (∃ suf, (escalate_field field_name addr raw st).chat = st.chat ++ suf) := by
  refine ⟨rfl, ?_, ?_, ?_, ⟨_, rfl⟩⟩
  · simp [escalate_field, pushChat]
  · intro a ha
    simp only [escalate_field, pushChat]
    exact getFd_set_ne _ _ _ _ ha
  · intro a
    simp only [escalate_field, pushChat]
    refine stripVNR_set _ _ _ ?_ a
    rfl

/-- Per-field step invariants: the review list only grows, the heap length is
preserved, other addresses are untouched, non-VNR keys are untouched, the
chat only grows. -/
theorem stepField_invariants (field_name : String) (addr : Nat) (st : PState) :
    (∃ suf, (stepField field_name addr st).needs_review = st.needs_review ++ suf) ∧
    (stepField field_name addr st).heap.length = st.heap.length ∧
    (∀ a, a ≠ addr →
      getFd (stepField field_name addr st).heap a = getFd st.heap a) ∧
    (∀ a, stripVNR (getFd (stepField field_name addr st).heap a) =
      stripVNR (getFd st.heap a)) ∧
    (∃ suf, (stepField field_name addr st).chat = st.chat ++ suf) := by
  unfold stepField
  dsimp only
  split
  · exact ⟨⟨[], by simp⟩, rfl, fun a _ => rfl, fun a => rfl, ⟨[], by simp⟩⟩
  · obtain ⟨hn, hl, ho, hs, ⟨suf, hc⟩⟩ :=
      fieldLoop_invariants field_name addr
        (create_interactive_field_prompt field_name (getFd st.heap addr))
        max_attempts "" st
    split
    · exact ⟨⟨[], by simp [hn]⟩, hl, ho, hs, ⟨suf, hc⟩⟩
    · obtain ⟨hen, hel, heo, hes, ⟨suf2, hec⟩⟩ :=
        escalate_invariants field_name addr _ _
      refine ⟨⟨[field_name], by rw [hen, hn]⟩, by rw [hel, hl], ?_, ?_, ?_⟩
      · intro a ha
        rw [heo a ha, ho a ha]
      · intro a
        rw [hes a, hs a]
      · refine ⟨suf ++ suf2, ?_⟩
        rw [hec, hc]
        simp

theorem processFields_invariants :
    ∀ (l : List (String × Nat)) (st : PState),
      (∃ suf, (processFields l st).needs_review = st.needs_review ++ suf) ∧
      (processFields l st).heap.length = st.heap.length ∧
      (∀ a, (∀ q ∈ l, q.2 ≠ a) →
        getFd (processFields l st).heap a = getFd st.heap a) ∧
      (∀ a, stripVNR (getFd (processFields l st).heap a) =
        stripVNR (getFd st.heap a)) ∧
      (∃ suf, (processFields l st).chat = st.chat ++ suf) := by
  intro l
  induction l with
  | nil =>
      intro st
      exact ⟨⟨[], by simp [processFields]⟩, rfl, fun a _ => rfl, fun a => rfl,
        ⟨[], by simp [processFields]⟩⟩
  | cons q rest ih =>
      intro st
      obtain ⟨⟨suf1, hn1⟩, hl1, ho1, hs1, ⟨sufc1, hc1⟩⟩ :=
        stepField_invariants q.1 q.2 st
      obtain ⟨⟨suf2, hn2⟩, hl2, ho2, hs2, ⟨sufc2, hc2⟩⟩ :=
        ih (stepField q.1 q.2 st)
      have hstep : processFields (q :: rest) st = processFields rest (stepField q.1 q.2 st) := by
        rcases q with ⟨qn, qa⟩
        rfl
      refine ⟨⟨suf1 ++ suf2, ?_⟩, ?_, ?_, ?_, ⟨sufc1 ++ sufc2, ?_⟩⟩
      · rw [hstep, hn2, hn1]
        simp
      · rw [hstep, hl2, hl1]
      · intro a ha
        rw [hstep, ho2 a (fun p hp => ha p (List.mem_cons_of_mem q hp)),
          ho1 a (ha q (List.mem_cons_self q rest)).symm]
      · intro a
        rw [hstep, hs2 a, hs1 a]
      · rw [hstep, hc2, hc1]
        simp

theorem processFields_append (xs ys : List (String × Nat)) (st : PState) :
    processFields (xs ++ ys) st = processFields ys (processFields xs st) := by
  induction xs generalizing st with
  | nil => rfl
  | cons q rest ih =>
      rcases q with ⟨qn, qa⟩
      simp only [List.cons_append, processFields]
      exact ih _

theorem mem_pushChat (st : PState) (e : ChatEntry) : e ∈ (pushChat st e).chat := by
  simp [pushChat]

theorem lookup_map_ref (n : String) (l : List (String × Nat)) :
    List.lookup n (l.map fun p => (p.1, Entry.ref p.2)) =
      (List.lookup n l).map Entry.ref := by
  induction l with
  | nil => rfl
  | cons q rest ih =>
      rcases q with ⟨qn, qa⟩
      cases h : (n == qn) <;> simp [List.lookup, h, ih]

theorem lookup_dictSet_self (l : List (String × Entry)) (k : String) (v : Entry) :
    List.lookup k (dictSet l k v) = some v := by
  induction l with
  | nil => simp [dictSet, List.lookup]
  | cons q rest ih =>
      rcases q with ⟨qk, qv⟩
      cases h : (qk == k) with
      | true =>
          simp only [dictSet, h, if_true]
          simp [List.lookup]
      | false =>
          have h2 : (k == qk) = false := by
            rw [beq_eq_false_iff_ne] at h ⊢
            exact fun hc => h hc.symm
          simp only [dictSet, h, Bool.false_eq_true, if_false]
          simp [List.lookup, h2, ih]

theorem lookup_dictSet_ne (l : List (String × Entry)) (n k : String) (v : Entry)
    (h : n ≠ k) : List.lookup n (dictSet l k v) = List.lookup n l := by
  have hnk : (n == k) = false := by
    rw [beq_eq_false_iff_ne]
    exact h
  induction l with
  | nil => simp [dictSet, List.lookup, hnk]
  | cons q rest ih =>
      rcases q with ⟨qk, qv⟩
      cases hq : (qk == k) with
      | true =>
          have hqk : qk = k := by rwa [beq_iff_eq] at hq
          subst hqk
          simp only [dictSet, beq_self_eq_true, if_true]
          simp [List.lookup, hnk]
      | false =>
          simp only [dictSet, hq, Bool.false_eq_true, if_false]
          cases hnq : (n == qk) <;> simp [List.lookup, hnq, ih]

/-- One failed validation attempt: the loop consumes the input line and the
oracle outcome, appends a failure record, and retries with the raw input
remembered. -/
theorem fieldLoop_fail_step (field_name : String) (addr : Nat) (p raw : String)
    (k : Nat) (st : PState) (i : String) (r : List String) (o : LLMCall)
    (ro : List LLMCall)
    (h1 : st.inputs = i :: r) (h2 : st.oracle = o :: ro)
    (hs : (!(getFd st.heap addr).required && is_skip_request i) = false)
    (hv : (validate_input_with_context field_name (getFd st.heap addr) i o).1 = false) :
    fieldLoop field_name addr p raw (k + 1) st =
      fieldLoop field_name addr p i k
        (pushChat { st with inputs := r, oracle := ro }
          (fail_entry field_name (getFd st.heap addr) i o (max_attempts - k))) := by
  simp only [fieldLoop, popInput_eq, popOracle_eq, h1, h2, List.headD_cons, List.tail_cons]
  simp only [hs, Bool.false_eq_true, if_false, hv]
  rfl

/-- Three failed validation attempts exhaust `max_attempts = 3`: the loop
returns `valid = false` with the third (last) raw input, leaving the heap and
the review list untouched. -/
theorem fieldLoop_fail3 (field_name : String) (addr : Nat) (p : String)
    (st : PState) (i1 i2 i3 : String) (restIn : List String)
    (o1 o2 o3 : LLMCall) (restOr : List LLMCall)
    (h1 : st.inputs = i1 :: i2 :: i3 :: restIn)
    (h2 : st.oracle = o1 :: o2 :: o3 :: restOr)
    (hs1 : (!(getFd st.heap addr).required && is_skip_request i1) = false)
    (hs2 : (!(getFd st.heap addr).required && is_skip_request i2) = false)
    (hs3 : (!(getFd st.heap addr).required && is_skip_request i3) = false)
    (hv1 : (validate_input_with_context field_name (getFd st.heap addr) i1 o1).1 = false)
    (hv2 : (validate_input_with_context field_name (getFd st.heap addr) i2 o2).1 = false)
    (hv3 : (validate_input_with_context field_name (getFd st.heap addr) i3 o3).1 = false) :
    ∃ st2, fieldLoop field_name addr p "" max_attempts st = (st2, false, i3) ∧
      st2.heap = st.heap ∧ st2.needs_review = st.needs_review := by
  have H1 : fieldLoop field_name addr p "" max_attempts st =
      fieldLoop field_name addr p i1 2 (pushChat ⟨st.heap, i2 :: i3 :: restIn, o2 :: o3 :: restOr, st.chat, st.needs_review⟩ (fail_entry field_name (getFd st.heap addr) i1 o1 1)) :=
    fieldLoop_fail_step field_name addr p "" 2 st i1 _ o1 _ h1 h2 hs1 hv1
  have H2 : fieldLoop field_name addr p i1 2 (pushChat ⟨st.heap, i2 :: i3 :: restIn, o2 :: o3 :: restOr, st.chat, st.needs_review⟩ (fail_entry field_name (getFd st.heap addr) i1 o1 1)) =
      fieldLoop field_name addr p i2 1 (pushChat ⟨st.heap, i3 :: restIn, o3 :: restOr, st.chat ++ [fail_entry field_name (getFd st.heap addr) i1 o1 1], st.needs_review⟩ (fail_entry field_name (getFd st.heap addr) i2 o2 2)) :=
    fieldLoop_fail_step field_name addr p i1 1 (pushChat ⟨st.heap, i2 :: i3 :: restIn, o2 :: o3 :: restOr, st.chat, st.needs_review⟩ (fail_entry field_name (getFd st.heap addr) i1 o1 1)) i2 _ o2 _ rfl rfl hs2 hv2
  have H3 : fieldLoop field_name addr p i2 1 (pushChat ⟨st.heap, i3 :: restIn, o3 :: restOr, st.chat ++ [fail_entry field_name (getFd st.heap addr) i1 o1 1], st.needs_review⟩ (fail_entry field_name (getFd st.heap addr) i2 o2 2)) =
      fieldLoop field_name addr p i3 0
        (pushChat ⟨st.heap, restIn, restOr, (st.chat ++ [fail_entry field_name (getFd st.heap addr) i1 o1 1]) ++ [fail_entry field_name (getFd st.heap addr) i2 o2 2], st.needs_review⟩ (fail_entry field_name (getFd st.heap addr) i3 o3 3)) :=
    fieldLoop_fail_step field_name addr p i2 0 (pushChat ⟨st.heap, i3 :: restIn, o3 :: restOr, st.chat ++ [fail_entry field_name (getFd st.heap addr) i1 o1 1], st.needs_review⟩ (fail_entry field_name (getFd st.heap addr) i2 o2 2)) i3 _ o3 _ rfl rfl hs3 hv3
  rw [H1, H2, H3]
  exact ⟨_, rfl, rfl, rfl⟩

/-- Every processed field produces at least one chat entry tagged with its
name, whatever branch the first attempt takes. -/
theorem fieldLoop_chat_entry (field_name : String) (addr : Nat) (p raw : String)
    (k : Nat) (st : PState) :
    ∃ e, e ∈ (fieldLoop field_name addr p raw (k + 1) st).1.chat ∧
      e.field = some field_name := by
  simp only [fieldLoop, popInput_eq, popOracle_eq]
  split
  · exact ⟨_, mem_pushChat _ _, rfl⟩
  · split
    · exact ⟨_, mem_pushChat _ _, rfl⟩
    · obtain ⟨-, -, -, -, ⟨suf, hc⟩⟩ := fieldLoop_invariants field_name addr p k _ _
      refine ⟨fail_entry field_name (getFd st.heap addr) (st.inputs.headD "")
        (st.oracle.headD LLMCall.raises) (max_attempts - k), ?_, rfl⟩
      rw [hc]
      exact List.mem_append_left _ (mem_pushChat _ _)

theorem stepField_chat_entry (field_name : String) (addr : Nat) (st : PState)
    (hHid : (getFd st.heap addr).hidden = false)
    (hUnd : pyStartsWith field_name "_" = false) :
    ∃ e, e ∈ (stepField field_name addr st).chat ∧ e.field = some field_name := by
  unfold stepField
  dsimp only
  rw [hHid, hUnd]
  simp only [Bool.or_self, Bool.false_eq_true, if_false]
  obtain ⟨e, he, hf⟩ := fieldLoop_chat_entry field_name addr
    (create_interactive_field_prompt field_name (getFd st.heap addr)) "" 2 st
  split
  · exact ⟨e, he, hf⟩
  · obtain ⟨-, -, -, -, ⟨suf, hc⟩⟩ := escalate_invariants field_name addr _ _
    refine ⟨e, ?_, hf⟩
    rw [hc]
    exact List.mem_append_left _ he

/-! ## C1 — escalation stores the last raw input and fills the review ledger -/

/-- C1: if a (visible, non-system) field exhausts `max_attempts = 3` failed
validation attempts during `process_form` — no attempt hits the optional-skip
branch and all three validations fail — then the completed form stores the
third (last) raw input verbatim as the field value, sets `needs_review=true`
and `review_reason="Maximum validation attempts reached"` on the field dict,
and the field name appears in the `_review_status.fields_needing_review`
list.  `hAlias` says no later field shares this field dict object. -/
theorem C1_escalation_preserves_last_raw
    (pre rest : List (String × Nat)) (field_name : String) (addr : Nat)
    (heap0 : List FieldRec) (inputs0 : List String) (oracle0 : List LLMCall)
    (i1 i2 i3 : String) (restIn : List String)
    (o1 o2 o3 : LLMCall) (restOr : List LLMCall)
    (hHid : (getFd (processFields pre (initState heap0 inputs0 oracle0)).heap addr).hidden = false)
    (hUnd : pyStartsWith field_name "_" = false)
    (hIn : (processFields pre (initState heap0 inputs0 oracle0)).inputs = i1 :: i2 :: i3 :: restIn)
    (hOr : (processFields pre (initState heap0 inputs0 oracle0)).oracle = o1 :: o2 :: o3 :: restOr)
    (hs1 : (!(getFd (processFields pre (initState heap0 inputs0 oracle0)).heap addr).required && is_skip_request i1) = false)
    (hs2 : (!(getFd (processFields pre (initState heap0 inputs0 oracle0)).heap addr).required && is_skip_request i2) = false)
    (hs3 : (!(getFd (processFields pre (initState heap0 inputs0 oracle0)).heap addr).required && is_skip_request i3) = false)
    (hv1 : (validate_input_with_context field_name (getFd (processFields pre (initState heap0 inputs0 oracle0)).heap addr) i1 o1).1 = false)
    (hv2 : (validate_input_with_context field_name (getFd (processFields pre (initState heap0 inputs0 oracle0)).heap addr) i2 o2).1 = false)
    (hv3 : (validate_input_with_context field_name (getFd (processFields pre (initState heap0 inputs0 oracle0)).heap addr) i3 o3).1 = false)
    (hAddr : addr < (processFields pre (initState heap0 inputs0 oracle0)).heap.length)
    (hAlias : ∀ q ∈ rest, q.2 ≠ addr) :
    (getFd (process_form (pre ++ (field_name, addr) :: rest) heap0 inputs0 oracle0).state.heap addr).value = Val.str i3 ∧
    (getFd (process_form (pre ++ (field_name, addr) :: rest) heap0 inputs0 oracle0).state.heap addr).needs_review = some true ∧
    (getFd (process_form (pre ++ (field_name, addr) :: rest) heap0 inputs0 oracle0).state.heap addr).review_reason =
      some "Maximum validation attempts reached" ∧
    field_name ∈ (process_form (pre ++ (field_name, addr) :: rest) heap0 inputs0 oracle0).state.needs_review ∧
    ∃ l, List.lookup "_review_status" (process_form (pre ++ (field_name, addr) :: rest) heap0 inputs0 oracle0).entries = some (Entry.review l) ∧
      field_name ∈ l := by
  have hne : (pre ++ (field_name, addr) :: rest).isEmpty = false := by
    cases pre <;> rfl
  obtain ⟨st2, hLoop, hHeap2, hNr2⟩ := fieldLoop_fail3 field_name addr
    (create_interactive_field_prompt field_name (getFd (processFields pre (initState heap0 inputs0 oracle0)).heap addr))
    (processFields pre (initState heap0 inputs0 oracle0)) i1 i2 i3 restIn o1 o2 o3 restOr hIn hOr hs1 hs2 hs3 hv1 hv2 hv3
  have hstep : stepField field_name addr (processFields pre (initState heap0 inputs0 oracle0)) =
      escalate_field field_name addr i3 st2 := by
    unfold stepField
    dsimp only
    rw [hHid, hUnd]
    simp only [Bool.or_self, Bool.false_eq_true, if_false]
    rw [hLoop]
    rfl
  have hstate : (process_form (pre ++ (field_name, addr) :: rest) heap0 inputs0 oracle0).state =
      processFields rest (escalate_field field_name addr i3 st2) := by
    unfold process_form
    simp only [hne, Bool.false_eq_true, if_false]
    unfold runForm
    dsimp only
    rw [processFields_append]
    rw [show processFields ((field_name, addr) :: rest) (processFields pre (initState heap0 inputs0 oracle0)) =
      processFields rest (stepField field_name addr (processFields pre (initState heap0 inputs0 oracle0))) from rfl, hstep]
  have hentriesEq : (process_form (pre ++ (field_name, addr) :: rest) heap0 inputs0 oracle0).entries =
      (if (processFields rest (escalate_field field_name addr i3 st2)).needs_review.isEmpty then
        ((pre ++ (field_name, addr) :: rest).map fun p => (p.1, Entry.ref p.2))
      else dictSet ((pre ++ (field_name, addr) :: rest).map fun p => (p.1, Entry.ref p.2))
        "_review_status"
        (Entry.review (processFields rest (escalate_field field_name addr i3 st2)).needs_review)) := by
    unfold process_form
    simp only [hne, Bool.false_eq_true, if_false]
    unfold runForm
    dsimp only
    rw [processFields_append]
    rw [show processFields ((field_name, addr) :: rest) (processFields pre (initState heap0 inputs0 oracle0)) =
      processFields rest (stepField field_name addr (processFields pre (initState heap0 inputs0 oracle0))) from rfl, hstep]
  have hEheap : getFd (escalate_field field_name addr i3 st2).heap addr =
      { getFd st2.heap addr with
        value := Val.str i3
        needs_review := some true
        review_reason := some "Maximum validation attempts reached" } := by
    unfold escalate_field
    dsimp only
    exact getFd_set_self _ _ _ (by rw [hHeap2]; exact hAddr)
  have hEneeds : (escalate_field field_name addr i3 st2).needs_review =
      (processFields pre (initState heap0 inputs0 oracle0)).needs_review ++ [field_name] := by
    rw [(escalate_invariants field_name addr i3 st2).1, hNr2]
  obtain ⟨⟨sufn, hn⟩, -, hother, -, -⟩ :=
    processFields_invariants rest (escalate_field field_name addr i3 st2)
  have hfinalheap : getFd (processFields rest (escalate_field field_name addr i3 st2)).heap addr =
      getFd (escalate_field field_name addr i3 st2).heap addr :=
    hother addr hAlias
  have hmem : field_name ∈
      (processFields rest (escalate_field field_name addr i3 st2)).needs_review := by
    rw [hn, hEneeds]
    exact List.mem_append_left _ (List.mem_append_right _ (List.mem_singleton.mpr rfl))
  have hnonempty : (processFields rest (escalate_field field_name addr i3 st2)).needs_review.isEmpty = false := by
    cases hcase : (processFields rest (escalate_field field_name addr i3 st2)).needs_review with
    | nil => rw [hcase] at hmem; simp at hmem
    | cons x t => rfl
  refine ⟨?_, ?_, ?_, ?_, ?_⟩
  · rw [hstate, hfinalheap, hEheap]
  · rw [hstate, hfinalheap, hEheap]
  · rw [hstate, hfinalheap, hEheap]
  · rw [hstate]
    exact hmem
  · rw [hentriesEq, hnonempty]
    simp only [Bool.false_eq_true, if_false]
    exact ⟨_, lookup_dictSet_self _ _ _, hmem⟩

theorem C1_witness :
    (getFd escRun.state.heap 0).value = Val.str "a3x" ∧
    (getFd escRun.state.heap 0).needs_review = some true ∧
    (getFd escRun.state.heap 0).review_reason =
      some "Maximum validation attempts reached" ∧
    "patient_name" ∈ escRun.state.needs_review ∧
    ∃ l, List.lookup "_review_status" escRun.entries = some (Entry.review l) ∧
      "patient_name" ∈ l := by
  exact C1_escalation_preserves_last_raw [] [] "patient_name" 0 escHeap
    ["a1x", "a2x", "a3x"] [oracleReject, oracleReject, oracleReject]
    "a1x" "a2x" "a3x" [] oracleReject oracleReject oracleReject []
    rfl rfl rfl rfl rfl rfl rfl rfl rfl rfl (by decide)
    (by intro q hq; simp at hq)

/-! ## C3 — conditional visibility is never enforced -/

/-- C3 counterexample: a field whose `conditional` dependency holds the value
`"no"`, not in the visible set `["yes"]`, is still prompted by
`process_form`: its value is collected and a chat-history entry tagged with
its name is produced — `conditional` is never consulted. -/
theorem C3_conditional_field_still_prompted :
    (getFd condHeap 1).conditional = some ⟨"symptoms_present", ["yes"]⟩ ∧
    (getFd condRun.state.heap 0).value = Val.str "no" ∧
    (["yes"] : List String).contains "no" = false ∧
    condRun.state.chat.any (fun e => e.field == some "symptom_details") = true ∧
    (getFd condRun.state.heap 1).value = Val.str "headache" := by
  exact ⟨rfl, rfl, rfl, rfl, rfl⟩

/-- C3 (amended): `process_form` skips a field only when `hidden` is true or
the name starts with `_`; the `conditional` key is never read, so every
non-hidden, non-system field — whatever its `conditional` says and whatever
the dependency value is — is prompted and produces at least one chat-history
entry tagged with its name. -/
theorem C3_amended_conditional_ignored
    (pre rest : List (String × Nat)) (field_name : String) (addr : Nat)
    (heap0 : List FieldRec) (inputs0 : List String) (oracle0 : List LLMCall)
    (hHid : (getFd (processFields pre (initState heap0 inputs0 oracle0)).heap addr).hidden = false)
    (hUnd : pyStartsWith field_name "_" = false) :
    ∃ e, e ∈ (process_form (pre ++ (field_name, addr) :: rest) heap0 inputs0 oracle0).state.chat ∧ e.field = some field_name := by
  have hne : (pre ++ (field_name, addr) :: rest).isEmpty = false := by
    cases pre <;> rfl
  have hstate : (process_form (pre ++ (field_name, addr) :: rest) heap0 inputs0 oracle0).state =
      processFields rest (stepField field_name addr (processFields pre (initState heap0 inputs0 oracle0))) := by
    unfold process_form
    simp only [hne, Bool.false_eq_true, if_false]
    unfold runForm
    dsimp only
    rw [processFields_append]
    rfl
  obtain ⟨e, he, hf⟩ := stepField_chat_entry field_name addr (processFields pre (initState heap0 inputs0 oracle0)) hHid hUnd
  obtain ⟨-, -, -, -, ⟨suf, hc⟩⟩ :=
    processFields_invariants rest (stepField field_name addr (processFields pre (initState heap0 inputs0 oracle0)))
  refine ⟨e, ?_, hf⟩
  rw [hstate, hc]
  exact List.mem_append_left _ he

theorem C3_amended_witness :
    ∃ e, e ∈ condRun.state.chat ∧ e.field = some "symptom_details" := by
  exact C3_amended_conditional_ignored [("symptoms_present", 0)] [] "symptom_details" 1
    condHeap ["no", "headache"] [oracleAccept "no", oracleAccept "headache"] rfl rfl

/-! ## C10 — the returned form aliases the loaded schema -/

/-- C10: `process_form` returns a shallow copy of the loaded form: every
field name still maps to the same heap address (the same dict object) as in
`self.form_data`, so the recorded values live in the loaded schema's own
field dicts (in-place mutation); the heap neither grows nor shrinks, and
every key other than `value`/`needs_review`/`review_reason` of every field
dict is left unchanged.  The synthetic `_review_status` entry is the one
fresh (non-aliased) entry. -/
theorem C10_shallow_copy_aliasing
    (form_data : List (String × Nat)) (heap0 : List FieldRec)
    (inputs0 : List String) (oracle0 : List LLMCall)
    (hne : form_data ≠ []) :
    (∀ n a, List.lookup n form_data = some a → n ≠ "_review_status" →
      List.lookup n (process_form form_data heap0 inputs0 oracle0).entries =
        some (Entry.ref a)) ∧
    (process_form form_data heap0 inputs0 oracle0).state.heap.length = heap0.length ∧
    (∀ a, stripVNR (getFd (process_form form_data heap0 inputs0 oracle0).state.heap a) =
      stripVNR (getFd heap0 a)) := by
  have hie : form_data.isEmpty = false := by
    cases form_data with
    | nil => exact absurd rfl hne
    | cons a t => rfl
  obtain ⟨-, hlen, -, hstrip, -⟩ :=
    processFields_invariants form_data (initState heap0 inputs0 oracle0)
  refine ⟨?_, ?_, ?_⟩
  · intro n a hlook hnrs
    unfold process_form
    simp only [hie, Bool.false_eq_true, if_false]
    unfold runForm
    dsimp only
    split
    · rw [lookup_map_ref, hlook]
      rfl
    · rw [lookup_dictSet_ne _ _ _ _ hnrs, lookup_map_ref, hlook]
      rfl
  · unfold process_form
    simp only [hie, Bool.false_eq_true, if_false]
    unfold runForm
    dsimp only
    exact hlen
  · intro a
    unfold process_form
    simp only [hie, Bool.false_eq_true, if_false]
    unfold runForm
    dsimp only
    exact hstrip a

theorem C10_witness :
    List.lookup "symptoms_present" condRun.entries = some (Entry.ref 0) ∧
    condRun.state.heap.length = 2 ∧
    stripVNR (getFd condRun.state.heap 1) = stripVNR (getFd condHeap 1) := by
  have h := C10_shallow_copy_aliasing condForm condHeap ["no", "headache"]
    [oracleAccept "no", oracleAccept "headache"] (by decide)
  exact ⟨h.1 "symptoms_present" 0 rfl (by decide), h.2.1, h.2.2 1⟩

end FormAgent
